import Mathlib

/-!
Verification of `scripts/add-vendor-to-catalog.py`: a single-pass batch tool
that loads a handle-to-vendor mapping from `Products.csv`, joins it into the
`products` array of `valid_image_catalog.json`, backs the catalog file up and
overwrites it.  Python strings are modelled through their character lists
(ASCII case folding, as in `Char.toLower`), Python dicts as insertion-ordered
association lists, and the file system as an explicit association list from
paths to file data.
-/

namespace AddVendor

/-- Model of Python `str.lower` on one character: ASCII letters `A`..`Z` are
shifted to `a`..`z`, everything else is fixed. -/
def pyToLower (c : Char) : Char :=
  if 65 ≤ c.toNat ∧ c.toNat ≤ 90 then Char.ofNat (c.toNat + 32) else c

/-- Model of Python `str.lower`. -/
def pyLower (s : String) : String := ⟨s.data.map pyToLower⟩

/-- Drop whitespace from both ends of a character list. -/
def stripL (cs : List Char) : List Char :=
  ((cs.dropWhile Char.isWhitespace).reverse.dropWhile Char.isWhitespace).reverse

/-- Model of Python `str.strip`. -/
def pyStrip (s : String) : String := ⟨stripL s.data⟩

/-- Handle normalization exactly as the script performs it:
`handle.lower().strip()`. -/
def normalizeHandle (s : String) : String := pyStrip (pyLower s)

/-- Insertion-ordered association-list update, the model of Python dict
assignment `d[k] = v`: overwrite the value in place when the key is present,
otherwise append the binding at the end. -/
def assocSet {α : Type} (m : List (String × α)) (k : String) (v : α) :
    List (String × α) :=
  if m.any (fun kv => kv.1 = k) then
    m.map (fun kv => if kv.1 = k then (k, v) else kv)
  else m ++ [(k, v)]

/-- A CSV data row as `csv.DictReader` presents it: a finite map from column
names to cell strings. -/
abbrev Row := List (String × String)

/-- Model of `row.get(key, '')`: the cell under a column, the empty string
when the column is missing. -/
def rowGet (r : Row) (k : String) : String := (r.lookup k).getD ""

/-- The vendor map built by `load_vendor_map`: a Python dict from normalized
handle to vendor name. -/
abbrev VendorMap := List (String × String)

/-- Model of `vendor_map[handle] = vendor`. -/
def vmInsert (m : VendorMap) (k v : String) : VendorMap := assocSet m k v

/-- Model of `vendor_map.get(handle)` / dict lookup. -/
def vmLookup (m : VendorMap) (k : String) : Option String := m.lookup k

/-- Model of the membership test `handle in vendor_map`. -/
def vmContains (m : VendorMap) (k : String) : Bool := (vmLookup m k).isSome

/-- Body of the row loop of `load_vendor_map`: normalize the `Handle` cell by
`lower().strip()`, trim the `Vendor` cell, and insert the pair when both are
non-empty (Python truthiness of strings). -/
def loadStep (m : VendorMap) (row : Row) : VendorMap :=
  let handle := pyStrip (pyLower (rowGet row "Handle"))
  let vendor := pyStrip (rowGet row "Vendor")
  if handle ≠ "" ∧ vendor ≠ "" then vmInsert m handle vendor else m

/-- Model of `load_vendor_map`: fold the row loop over the parsed CSV rows,
starting from the empty dict. -/
def load_vendor_map (rows : List Row) : VendorMap := rows.foldl loadStep []

/-- Predicate describing the rows that insert an entry for key `k`: the
normalized handle equals `k`, and both the normalized handle and the trimmed
vendor are non-empty. -/
def rowInserts (row : Row) (k : String) : Prop :=
  normalizeHandle (rowGet row "Handle") = k ∧ k ≠ "" ∧
    pyStrip (rowGet row "Vendor") ≠ ""

instance (row : Row) (k : String) : Decidable (rowInserts row k) := by
  unfold rowInserts; infer_instance

/-- The vendor the loader would retain for key `k`: the vendor of the last
row that inserts an entry for `k`, `none` when no row does.  Later rows take
priority over earlier ones. -/
def lastVendorFor : List Row → String → Option String
  | [], _ => none
  | r :: rest, k =>
    match lastVendorFor rest k with
    | some v => some v
    | none => if rowInserts r k then some (pyStrip (rowGet r "Vendor")) else none

/-- A JSON value as `json.load` produces it; objects keep the insertion order
of Python dicts. -/
inductive Json where
  | null : Json
  | bool : Bool → Json
  | num : Int → Json
  | str : String → Json
  | arr : List Json → Json
  | obj : List (String × Json) → Json

/-- A product record: a Python dict from field names to JSON values. -/
abbrev Product := List (String × Json)

/-- Model of dict lookup on a product or catalog object. -/
def dictGet (p : List (String × Json)) (k : String) : Option Json := p.lookup k

/-- Model of dict assignment `p[k] = v` on a product. -/
def dictSet (p : Product) (k : String) (v : Json) : Product := assocSet p k v

/-- The loop body `product.get('handle', '').lower().strip()` is only defined
when the `handle` value, if present, is a string; on any other value Python
raises `AttributeError`.  This predicate marks the products the loop accepts. -/
def handleOkB (p : Product) : Bool :=
  match dictGet p "handle" with
  | some (Json.str _) => true
  | some _ => false
  | none => true

/-- Value of `product.get('handle', '')` on a product accepted by
`handleOkB`. -/
def getHandle (p : Product) : String :=
  match dictGet p "handle" with
  | some (Json.str s) => s
  | _ => ""

/-- Body of the product loop of `main`: when the normalized handle is
non-empty and is a key of the vendor map, set the product's `vendor` field to
the mapped value (and tally `updated_count`, the `true` flag); otherwise leave
the product untouched (and tally `not_found_count`, the `false` flag). -/
def updateProduct (vm : VendorMap) (p : Product) : Product × Bool :=
  let handle := normalizeHandle (getHandle p)
  if handle ≠ "" ∧ vmContains vm handle then
    (dictSet p "vendor" (Json.str ((vmLookup vm handle).getD "")), true)
  else (p, false)

/-- The update applied to one raw element of `catalog['products']`. -/
def jsonUpdate (vm : VendorMap) : Json → Json
  | Json.obj p => Json.obj (updateProduct vm p).1
  | j => j

/-- The product loop of `main` over the raw array `catalog['products']`:
every element is processed in order; an element that is not an object with a
string (or absent) handle makes the loop fail, as the uncaught Python
exception would.  Returns the updated elements together with the final
`updated_count` and `not_found_count`. -/
def processProducts (vm : VendorMap) : List Json → Except Unit (List Json × Nat × Nat)
  | [] => Except.ok ([], 0, 0)
  | Json.obj p :: rest =>
    if handleOkB p then
      match processProducts vm rest with
      | Except.error e => Except.error e
      | Except.ok (js, u, n) =>
        let r := updateProduct vm p
        Except.ok (Json.obj r.1 :: js,
          (if r.2 then 1 else 0) + u, (if r.2 then 0 else 1) + n)
    else Except.error ()
  | _ :: _ => Except.error ()

/-- The catalog document: the top-level JSON object, a Python dict. -/
abbrev Catalog := List (String × Json)

/-- The in-place mutation of the list held under `catalog['products']`, seen
at the document level: the value stored under `"products"` becomes `v`, every
other top-level entry stays exactly where it was.  `main` only applies this
when the catalog holds a `products` key, so the update always lands on the
existing entry. -/
def setProducts (cat : Catalog) (v : Json) : Catalog := assocSet cat "products" v

/-- Error taxonomy of the script's failure exits. -/
inductive Err where
  | fileNotFound : Err
  | malformedInput : Err
  | backupFailed : Err
  | writeFailed : Err
deriving DecidableEq, Repr

/-- A file on disk: raw text content plus the metadata (timestamps and
permissions) that `shutil.copy2` preserves, abstracted as a number. -/
structure FileData where
  content : String
  meta : Nat
deriving DecidableEq, Repr

/-- The file system: an association list from paths to file data. -/
abbrev FS := List (String × FileData)

def fsGet (fs : FS) (p : String) : Option FileData := fs.lookup p

def fsSet (fs : FS) (p : String) (d : FileData) : FS := assocSet fs p d

/-- Backup path `f"{catalog_path}.backup-{int(datetime.now().timestamp())}"`:
the catalog path plus a suffix holding the integer Unix timestamp. -/
def backupName (catalogPath : String) (ts : Int) : String :=
  catalogPath ++ ".backup-" ++ toString ts

/-- Model of `shutil.copy2(src, dst)`: copy content and metadata to `dst`.
The `ok` flag stands for the environment (disk space, permissions); the copy
also fails when the source is missing.  A failed copy raises `OSError` in
Python, surfaced here as `BackupFailed`, and leaves the file system alone. -/
def copy2 (ok : Bool) (src dst : String) (fs : FS) : Option Err × FS :=
  match fsGet fs src with
  | none => (some Err.backupFailed, fs)
  | some fd =>
    if ok then (none, fsSet fs dst fd) else (some Err.backupFailed, fs)

/-- Environment of one run of `main`: the behaviour of the Python library
calls the script makes (`csv.DictReader`, `json.load`, `json.dump`) and of
the operating system (the current integer timestamp, whether the backup copy
and the final write succeed, the metadata a freshly written file receives,
and the truncated content an interrupted write leaves behind). -/
structure Env where
  csvParse : String → Except Unit (List Row)
  jsonParse : String → Except Unit Catalog
  serialize : Catalog → String
  ts : Int
  backupOk : Bool
  writeOk : Bool
  writeMeta : Nat
  interruptedContent : String

def csvPath : String := "Products.csv"

def catalogPath : String := "valid_image_catalog.json"

/-- Model of `main`: read and parse `Products.csv`, build the vendor map,
read and parse the catalog, run the product loop, back the catalog file up
with `shutil.copy2`, then overwrite it with the serialized document.  The
result pairs the error (if any) with the resulting file system; on an error
the file system is exactly as it stood at the point of failure.  A catalog
whose top level lacks a `products` array, or whose products the loop rejects,
aborts the run by an uncaught exception, surfaced as `MalformedInput`. -/
def main (env : Env) (fs : FS) : Option Err × FS :=
  match fsGet fs csvPath with
  | none => (some Err.fileNotFound, fs)
  | some csvFile =>
    match env.csvParse csvFile.content with
    | Except.error _ => (some Err.malformedInput, fs)
    | Except.ok rows =>
      let vm := load_vendor_map rows
      match fsGet fs catalogPath with
      | none => (some Err.fileNotFound, fs)
      | some catFile =>
        match env.jsonParse catFile.content with
        | Except.error _ => (some Err.malformedInput, fs)
        | Except.ok cat =>
          match dictGet cat "products" with
          | some (Json.arr ps) =>
            match processProducts vm ps with
            | Except.error _ => (some Err.malformedInput, fs)
            | Except.ok (js, _, _) =>
              let outDoc := setProducts cat (Json.arr js)
              match copy2 env.backupOk catalogPath
                  (backupName catalogPath env.ts) fs with
              | (some e, fs1) => (some e, fs1)
              | (none, fs1) =>
                if env.writeOk then
                  (none, fsSet fs1 catalogPath
                    ⟨env.serialize outDoc, env.writeMeta⟩)
                else
                  (some Err.writeFailed, fsSet fs1 catalogPath
                    ⟨env.interruptedContent, env.writeMeta⟩)
          | _ => (some Err.malformedInput, fs)

/-! Character-level facts about the case-folding model. -/

theorem toNat_ofNat_of_valid {n : Nat} (h : n < 55296) : (Char.ofNat n).toNat = n := by
  rw [Char.ofNat, dif_pos (Or.inl h)]
  rfl

theorem pyToLower_eq_self (c : Char) (h : ¬(65 ≤ c.toNat ∧ c.toNat ≤ 90)) :
    pyToLower c = c := by
  simp only [pyToLower, if_neg h]

theorem toNat_pyToLower_of_upper (c : Char) (h : 65 ≤ c.toNat ∧ c.toNat ≤ 90) :
    (pyToLower c).toNat = c.toNat + 32 := by
  simp only [pyToLower, if_pos h]
  exact toNat_ofNat_of_valid (by omega)

theorem pyToLower_pyToLower (c : Char) : pyToLower (pyToLower c) = pyToLower c := by
  by_cases h : 65 ≤ c.toNat ∧ c.toNat ≤ 90
  · have h1 := toNat_pyToLower_of_upper c h
    exact pyToLower_eq_self _ (by omega)
  · rw [pyToLower_eq_self c h]
    exact pyToLower_eq_self c h

theorem char_toNat_inj {c d : Char} (h : c.toNat = d.toNat) : c = d :=
  Char.ext (UInt32.toNat.inj h)

theorem isWhitespace_iff (c : Char) :
    c.isWhitespace = true ↔
      c.toNat = 32 ∨ c.toNat = 9 ∨ c.toNat = 13 ∨ c.toNat = 10 := by
  unfold Char.isWhitespace
  simp only [Bool.or_eq_true, decide_eq_true_eq]
  constructor
  · rintro (((rfl | rfl) | rfl) | rfl)
    · exact Or.inl rfl
    · exact Or.inr (Or.inl rfl)
    · exact Or.inr (Or.inr (Or.inl rfl))
    · exact Or.inr (Or.inr (Or.inr rfl))
  · rintro (h | h | h | h)
    · exact Or.inl (Or.inl (Or.inl
        (char_toNat_inj (show c.toNat = Char.toNat ' ' from h))))
    · exact Or.inl (Or.inl (Or.inr
        (char_toNat_inj (show c.toNat = Char.toNat '\t' from h))))
    · exact Or.inl (Or.inr
        (char_toNat_inj (show c.toNat = Char.toNat '\r' from h)))
    · exact Or.inr (char_toNat_inj (show c.toNat = Char.toNat '\n' from h))

theorem isWhitespace_pyToLower (c : Char) :
    (pyToLower c).isWhitespace = c.isWhitespace := by
  by_cases h : 65 ≤ c.toNat ∧ c.toNat ≤ 90
  · have h1 := toNat_pyToLower_of_upper c h
    have h2 : (pyToLower c).isWhitespace = false := by
      cases hb : (pyToLower c).isWhitespace with
      | false => rfl
      | true => exact absurd ((isWhitespace_iff _).mp hb) (by omega)
    have h3 : c.isWhitespace = false := by
      cases hb : c.isWhitespace with
      | false => rfl
      | true => exact absurd ((isWhitespace_iff _).mp hb) (by omega)
    rw [h2, h3]
  · rw [pyToLower_eq_self c h]

/-! Facts about two-sided stripping. -/

theorem stripL_eq_rdropWhile (cs : List Char) :
    stripL cs =
      List.rdropWhile Char.isWhitespace (cs.dropWhile Char.isWhitespace) := rfl

theorem dropWhile_eq_self_of_prefix {α : Type} {p : α → Bool} {t a : List α}
    (pre : t <+: a) (ha : a.dropWhile p = a) : t.dropWhile p = t := by
  cases t with
  | nil => rfl
  | cons x t' =>
    obtain ⟨r, hr⟩ := pre
    have hx : p x = false := by
      subst hr
      cases hpx : p x
      · rfl
      · exfalso
        rw [List.cons_append, List.dropWhile_cons_of_pos hpx] at ha
        have hlen := congrArg List.length ha
        have hle : (List.dropWhile p (t' ++ r)).length ≤ (t' ++ r).length :=
          ((List.dropWhile_suffix p).sublist).length_le
        simp only [List.length_cons] at hlen
        omega
    exact List.dropWhile_cons_of_neg (by simp [hx])

theorem stripL_idem (cs : List Char) : stripL (stripL cs) = stripL cs := by
  have h1 : List.dropWhile Char.isWhitespace
      (List.rdropWhile Char.isWhitespace (List.dropWhile Char.isWhitespace cs)) =
      List.rdropWhile Char.isWhitespace (List.dropWhile Char.isWhitespace cs) :=
    dropWhile_eq_self_of_prefix (List.rdropWhile_prefix _ _)
      (List.dropWhile_idempotent _ _)
  show List.rdropWhile Char.isWhitespace
      (List.dropWhile Char.isWhitespace
        (List.rdropWhile Char.isWhitespace
          (List.dropWhile Char.isWhitespace cs))) =
    List.rdropWhile Char.isWhitespace (List.dropWhile Char.isWhitespace cs)
  rw [h1]
  exact List.rdropWhile_idempotent _ _

theorem dropWhile_map_pyToLower (cs : List Char) :
    (cs.map pyToLower).dropWhile Char.isWhitespace =
      (cs.dropWhile Char.isWhitespace).map pyToLower := by
  have hf : Char.isWhitespace ∘ pyToLower = Char.isWhitespace :=
    funext isWhitespace_pyToLower
  rw [List.dropWhile_map, hf]

theorem stripL_map_pyToLower (cs : List Char) :
    stripL (cs.map pyToLower) = (stripL cs).map pyToLower := by
  unfold stripL
  rw [dropWhile_map_pyToLower, ← List.map_reverse, dropWhile_map_pyToLower,
    ← List.map_reverse]

theorem map_pyToLower_idem (cs : List Char) :
    (cs.map pyToLower).map pyToLower = cs.map pyToLower := by
  rw [List.map_map]
  exact List.map_congr_left fun c _ => pyToLower_pyToLower c

theorem pyStrip_pyStrip (s : String) : pyStrip (pyStrip s) = pyStrip s :=
  String.ext (stripL_idem s.data)

theorem pyLower_pyStrip_pyLower (s : String) :
    pyLower (pyStrip (pyLower s)) = pyStrip (pyLower s) := by
  apply String.ext
  show (stripL (s.data.map pyToLower)).map pyToLower = stripL (s.data.map pyToLower)
  rw [← stripL_map_pyToLower, map_pyToLower_idem]

theorem stripL_eq_nil_of_all_whitespace {cs : List Char}
    (h : ∀ c ∈ cs, c.isWhitespace = true) : stripL cs = [] := by
  unfold stripL
  have h1 : cs.dropWhile Char.isWhitespace = [] := by
    rw [List.dropWhile_eq_nil_iff]
    exact h
  rw [h1]
  rfl

/-! Association-list facts about the dict model. -/

theorem lookup_cons_ite {α : Type} (a1 : String) (a2 : α)
    (es : List (String × α)) (k : String) :
    ((a1, a2) :: es).lookup k = if k = a1 then some a2 else es.lookup k := by
  rw [List.lookup_cons]
  by_cases h : k = a1
  · rw [show (k == a1) = true from beq_iff_eq.mpr h, if_pos h]
  · rw [show (k == a1) = false from beq_false_of_ne h, if_neg h]

theorem lookup_replace_self {α : Type} (m : List (String × α)) (k : String) (v : α) :
    (m.map (fun kv => if kv.1 = k then (k, v) else kv)).lookup k =
      if m.any (fun kv => kv.1 = k) then some v else none := by
  induction m with
  | nil => rfl
  | cons a m ih =>
    obtain ⟨a1, a2⟩ := a
    by_cases hk : a1 = k
    · subst hk
      simp [lookup_cons_ite]
    · have hb : (decide (a1 = k)) = false := by simp [hk]
      simp only [List.map_cons, if_neg hk, lookup_cons_ite,
        if_neg (Ne.symm hk), ih, List.any_cons, hb, Bool.false_or]

theorem lookup_replace_ne {α : Type} (m : List (String × α)) (k : String) (v : α)
    {k' : String} (hne : k' ≠ k) :
    (m.map (fun kv => if kv.1 = k then (k, v) else kv)).lookup k' = m.lookup k' := by
  induction m with
  | nil => rfl
  | cons a m ih =>
    obtain ⟨a1, a2⟩ := a
    by_cases hk : a1 = k
    · subst hk
      simp [lookup_cons_ite, hne, ih]
    · by_cases hk' : k' = a1
      · subst hk'
        simp [lookup_cons_ite, hk]
      · simp [lookup_cons_ite, hk, hk', ih]

theorem lookup_append_single {α : Type} (m : List (String × α)) (k : String)
    (v : α) (k' : String) :
    (m ++ [(k, v)]).lookup k' =
      match m.lookup k' with
      | some w => some w
      | none => if k' = k then some v else none := by
  induction m with
  | nil =>
    show ([(k, v)] : List (String × α)).lookup k' = _
    rw [lookup_cons_ite, List.lookup_nil]
  | cons a m ih =>
    obtain ⟨a1, a2⟩ := a
    rw [List.cons_append, lookup_cons_ite, lookup_cons_ite]
    by_cases hk : k' = a1
    · rw [if_pos hk, if_pos hk]
    · rw [if_neg hk, if_neg hk, ih]

theorem lookup_eq_none_of_any_false {α : Type} {m : List (String × α)}
    {k : String} (h : m.any (fun kv => kv.1 = k) = false) : m.lookup k = none := by
  induction m with
  | nil => rfl
  | cons a m ih =>
    obtain ⟨a1, a2⟩ := a
    simp only [List.any_cons, Bool.or_eq_false_iff, decide_eq_false_iff_not] at h
    rw [lookup_cons_ite, if_neg (Ne.symm h.1)]
    exact ih h.2

theorem lookup_assocSet {α : Type} (m : List (String × α)) (k : String) (v : α)
    (k' : String) :
    (assocSet m k v).lookup k' = if k' = k then some v else m.lookup k' := by
  unfold assocSet
  by_cases hany : m.any (fun kv => kv.1 = k) = true
  · rw [if_pos hany]
    by_cases hk : k' = k
    · subst hk
      rw [if_pos rfl, lookup_replace_self, if_pos hany]
    · rw [if_neg hk, lookup_replace_ne m k v hk]
  · rw [if_neg hany, lookup_append_single]
    rw [Bool.not_eq_true] at hany
    by_cases hk : k' = k
    · subst hk
      rw [lookup_eq_none_of_any_false hany, if_pos rfl]
    · cases hm : m.lookup k' with
      | none => simp [hk]
      | some w => simp [hk]

theorem mem_assocSet {α : Type} {m : List (String × α)} {k : String} {v : α}
    {kv : String × α} (h : kv ∈ assocSet m k v) : kv ∈ m ∨ kv = (k, v) := by
  unfold assocSet at h
  by_cases hany : m.any (fun kv => kv.1 = k) = true
  · rw [if_pos hany] at h
    obtain ⟨a, ha, hkv⟩ := List.mem_map.mp h
    by_cases hk : a.1 = k
    · rw [if_pos hk] at hkv
      exact Or.inr hkv.symm
    · rw [if_neg hk] at hkv
      exact Or.inl (hkv ▸ ha)
  · rw [if_neg hany] at h
    rcases List.mem_append.mp h with h1 | h1
    · exact Or.inl h1
    · exact Or.inr (List.mem_singleton.mp h1)

theorem keyed_mem_assocSet {α : Type} {m : List (String × α)} {k : String}
    {v : α} {kv : String × α} (h : kv ∈ assocSet m k v) (hk : kv.1 = k) :
    kv = (k, v) := by
  unfold assocSet at h
  by_cases hany : m.any (fun kv => kv.1 = k) = true
  · rw [if_pos hany] at h
    obtain ⟨a, _, hkv⟩ := List.mem_map.mp h
    by_cases hak : a.1 = k
    · rw [if_pos hak] at hkv
      exact hkv.symm
    · rw [if_neg hak] at hkv
      exact absurd (hkv ▸ hk) hak
  · rw [if_neg hany] at h
    rcases List.mem_append.mp h with h1 | h1
    · rw [Bool.not_eq_true, List.any_eq_false] at hany
      exact absurd (by simpa using hk) (hany kv h1)
    · exact List.mem_singleton.mp h1

theorem assocSet_of_any {α : Type} (m : List (String × α)) (k : String) (v : α)
    (h : m.any (fun kv => kv.1 = k) = true) :
    assocSet m k v = m.map (fun kv => if kv.1 = k then (k, v) else kv) := by
  unfold assocSet
  rw [if_pos h]

theorem assocSet_assocSet_same {α : Type} (m : List (String × α)) (k : String)
    (v : α) : assocSet (assocSet m k v) k v = assocSet m k v := by
  have hsome : (assocSet m k v).lookup k = some v := by
    rw [lookup_assocSet, if_pos rfl]
  have hany : (assocSet m k v).any (fun kv => kv.1 = k) = true := by
    by_contra hc
    rw [Bool.not_eq_true] at hc
    rw [lookup_eq_none_of_any_false hc] at hsome
    exact Option.noConfusion hsome
  rw [assocSet_of_any _ _ _ hany]
  have hfix : ∀ kv ∈ assocSet m k v,
      (if kv.1 = k then (k, v) else kv) = kv := by
    intro kv hkv
    by_cases hk : kv.1 = k
    · rw [if_pos hk, keyed_mem_assocSet hkv hk]
    · rw [if_neg hk]
  calc (assocSet m k v).map (fun kv => if kv.1 = k then (k, v) else kv)
      = (assocSet m k v).map id := List.map_congr_left hfix
    _ = assocSet m k v := List.map_id _

/-! Facts about the vendor-map loader. -/

theorem loadStep_eq (m : VendorMap) (row : Row) :
    loadStep m row =
      if normalizeHandle (rowGet row "Handle") ≠ "" ∧
          pyStrip (rowGet row "Vendor") ≠ "" then
        vmInsert m (normalizeHandle (rowGet row "Handle"))
          (pyStrip (rowGet row "Vendor"))
      else m := rfl

theorem vmContains_loadStep (m : VendorMap) (r : Row) (k : String) :
    vmContains (loadStep m r) k = true ↔
      rowInserts r k ∨ vmContains m k = true := by
  rw [loadStep_eq]
  by_cases hc : normalizeHandle (rowGet r "Handle") ≠ "" ∧
      pyStrip (rowGet r "Vendor") ≠ ""
  · rw [if_pos hc]
    unfold vmContains vmLookup vmInsert
    rw [lookup_assocSet]
    by_cases hk : k = normalizeHandle (rowGet r "Handle")
    · rw [if_pos hk]
      simp only [Option.isSome_some]
      constructor
      · intro _
        refine Or.inl ⟨hk.symm, ?_, hc.2⟩
        rw [hk]
        exact hc.1
      · intro _
        trivial
    · rw [if_neg hk]
      constructor
      · intro h
        exact Or.inr h
      · rintro (hr | h)
        · exact absurd hr.1.symm hk
        · exact h
  · rw [if_neg hc]
    constructor
    · intro h
      exact Or.inr h
    · rintro (hr | h)
      · exfalso
        apply hc
        constructor
        · rw [hr.1]
          exact hr.2.1
        · exact hr.2.2
      · exact h

theorem vmContains_foldl (rows : List Row) (m : VendorMap) (k : String) :
    vmContains (rows.foldl loadStep m) k = true ↔
      (∃ row ∈ rows, rowInserts row k) ∨ vmContains m k = true := by
  induction rows generalizing m with
  | nil => simp
  | cons r rows ih =>
    rw [List.foldl_cons, ih, vmContains_loadStep]
    simp only [List.mem_cons]
    constructor
    · rintro (⟨row, hmem, hrow⟩ | hr | h)
      · exact Or.inl ⟨row, Or.inr hmem, hrow⟩
      · exact Or.inl ⟨r, Or.inl rfl, hr⟩
      · exact Or.inr h
    · rintro (⟨row, hmem | hmem, hrow⟩ | h)
      · subst hmem
        exact Or.inr (Or.inl hrow)
      · exact Or.inl ⟨row, hmem, hrow⟩
      · exact Or.inr (Or.inr h)

theorem vmContains_load_iff (rows : List Row) (k : String) :
    vmContains (load_vendor_map rows) k = true ↔
      ∃ row ∈ rows, rowInserts row k := by
  unfold load_vendor_map
  rw [vmContains_foldl]
  simp [vmContains, vmLookup]

theorem load_no_empty_key (rows : List Row) :
    vmContains (load_vendor_map rows) "" = false := by
  cases hb : vmContains (load_vendor_map rows) "" with
  | false => rfl
  | true =>
    obtain ⟨row, _, hrow⟩ := (vmContains_load_iff rows "").mp hb
    exact absurd rfl hrow.2.1

theorem vmLookup_foldl (rows : List Row) (m : VendorMap) (k : String) :
    vmLookup (rows.foldl loadStep m) k =
      match lastVendorFor rows k with
      | some v => some v
      | none => vmLookup m k := by
  induction rows generalizing m with
  | nil => rfl
  | cons r rows ih =>
    rw [List.foldl_cons, ih]
    show _ = match lastVendorFor (r :: rows) k with
      | some v => some v
      | none => vmLookup m k
    simp only [lastVendorFor]
    cases hl : lastVendorFor rows k with
    | some v => rfl
    | none =>
      by_cases hr : rowInserts r k
      · rw [if_pos hr, loadStep_eq, if_pos ⟨by rw [hr.1]; exact hr.2.1, hr.2.2⟩]
        unfold vmInsert vmLookup
        rw [lookup_assocSet, if_pos hr.1.symm]
      · rw [if_neg hr, loadStep_eq]
        by_cases hc : normalizeHandle (rowGet r "Handle") ≠ "" ∧
            pyStrip (rowGet r "Vendor") ≠ ""
        · rw [if_pos hc]
          unfold vmInsert vmLookup
          rw [lookup_assocSet, if_neg ?_]
          intro hk
          exact hr ⟨hk.symm, by rw [hk]; exact hc.1, hc.2⟩
        · rw [if_neg hc]

theorem vmLookup_load_eq_lastVendorFor (rows : List Row) (k : String) :
    vmLookup (load_vendor_map rows) k = lastVendorFor rows k := by
  unfold load_vendor_map
  rw [vmLookup_foldl]
  cases hl : lastVendorFor rows k with
  | some v => rfl
  | none => rfl

/-- The shape invariant of the vendor map's entries: a non-empty lowercased
trimmed key, a non-empty trimmed value. -/
def goodPair (kv : String × String) : Prop :=
  kv.1 ≠ "" ∧ pyLower kv.1 = kv.1 ∧ pyStrip kv.1 = kv.1 ∧
    kv.2 ≠ "" ∧ pyStrip kv.2 = kv.2

theorem goodPair_foldl (rows : List Row) (m : VendorMap)
    (hm : ∀ kv ∈ m, goodPair kv) :
    ∀ kv ∈ rows.foldl loadStep m, goodPair kv := by
  induction rows generalizing m with
  | nil => exact hm
  | cons r rows ih =>
    rw [List.foldl_cons]
    apply ih
    intro kv hkv
    rw [loadStep_eq] at hkv
    by_cases hc : normalizeHandle (rowGet r "Handle") ≠ "" ∧
        pyStrip (rowGet r "Vendor") ≠ ""
    · rw [if_pos hc] at hkv
      rcases mem_assocSet hkv with h1 | h1
      · exact hm kv h1
      · subst h1
        exact ⟨hc.1, pyLower_pyStrip_pyLower _, pyStrip_pyStrip _, hc.2,
          pyStrip_pyStrip _⟩
    · rw [if_neg hc] at hkv
      exact hm kv hkv

theorem goodPair_load (rows : List Row) :
    ∀ kv ∈ load_vendor_map rows, goodPair kv :=
  goodPair_foldl rows [] (by intro kv h; exact absurd h (List.not_mem_nil kv))

/-! Facts about the product update. -/

theorem dictGet_dictSet_ne (p : Product) (k : String) (v : Json) {k' : String}
    (h : k' ≠ k) : dictGet (dictSet p k v) k' = dictGet p k' := by
  unfold dictGet dictSet
  rw [lookup_assocSet, if_neg h]

theorem dictSet_dictSet_same (p : Product) (k : String) (v : Json) :
    dictSet (dictSet p k v) k v = dictSet p k v :=
  assocSet_assocSet_same p k v

theorem updateProduct_eq (vm : VendorMap) (p : Product) :
    updateProduct vm p =
      if normalizeHandle (getHandle p) ≠ "" ∧
          vmContains vm (normalizeHandle (getHandle p)) then
        (dictSet p "vendor"
          (Json.str ((vmLookup vm (normalizeHandle (getHandle p))).getD "")), true)
      else (p, false) := rfl

theorem updateProduct_frame (vm : VendorMap) (p : Product) {k : String}
    (hk : k ≠ "vendor") : dictGet (updateProduct vm p).1 k = dictGet p k := by
  rw [updateProduct_eq]
  by_cases hc : normalizeHandle (getHandle p) ≠ "" ∧
      vmContains vm (normalizeHandle (getHandle p)) = true
  · rw [if_pos hc]
    exact dictGet_dictSet_ne p _ _ hk
  · rw [if_neg hc]

theorem getHandle_updateProduct (vm : VendorMap) (p : Product) :
    getHandle (updateProduct vm p).1 = getHandle p := by
  unfold getHandle
  rw [updateProduct_frame vm p (show ("handle" : String) ≠ "vendor" by decide)]

theorem handleOkB_updateProduct (vm : VendorMap) (p : Product) :
    handleOkB (updateProduct vm p).1 = handleOkB p := by
  unfold handleOkB
  rw [updateProduct_frame vm p (show ("handle" : String) ≠ "vendor" by decide)]

theorem updateProduct_not_updated (vm : VendorMap) (p : Product)
    (h : (updateProduct vm p).2 = false) : (updateProduct vm p).1 = p := by
  rw [updateProduct_eq] at h ⊢
  by_cases hc : normalizeHandle (getHandle p) ≠ "" ∧
      vmContains vm (normalizeHandle (getHandle p)) = true
  · rw [if_pos hc] at h
    exact absurd h (by simp)
  · rw [if_neg hc]

theorem updateProduct_snd_iff (vm : VendorMap) (p : Product) :
    (updateProduct vm p).2 = true ↔
      normalizeHandle (getHandle p) ≠ "" ∧
        vmContains vm (normalizeHandle (getHandle p)) = true := by
  rw [updateProduct_eq]
  by_cases hc : normalizeHandle (getHandle p) ≠ "" ∧
      vmContains vm (normalizeHandle (getHandle p)) = true
  · rw [if_pos hc]
    simp [hc]
  · rw [if_neg hc]
    simp [hc]

theorem updateProduct_vendor (vm : VendorMap) (p : Product)
    (h : (updateProduct vm p).2 = true) :
    dictGet (updateProduct vm p).1 "vendor" =
      Option.map Json.str (vmLookup vm (normalizeHandle (getHandle p))) := by
  have hc := (updateProduct_snd_iff vm p).mp h
  rw [updateProduct_eq, if_pos hc]
  unfold dictGet dictSet
  rw [lookup_assocSet, if_pos rfl]
  obtain ⟨v, hv⟩ := Option.isSome_iff_exists.mp hc.2
  rw [hv]
  rfl

theorem updateProduct_idem (vm : VendorMap) (p : Product) :
    updateProduct vm (updateProduct vm p).1 = updateProduct vm p := by
  by_cases hc : normalizeHandle (getHandle p) ≠ "" ∧
      vmContains vm (normalizeHandle (getHandle p)) = true
  · have h1 : updateProduct vm p =
        (dictSet p "vendor"
          (Json.str ((vmLookup vm (normalizeHandle (getHandle p))).getD "")),
          true) := by
      rw [updateProduct_eq, if_pos hc]
    have hh : getHandle (updateProduct vm p).1 = getHandle p :=
      getHandle_updateProduct vm p
    rw [h1] at hh
    rw [h1]
    show updateProduct vm (dictSet p "vendor"
        (Json.str ((vmLookup vm (normalizeHandle (getHandle p))).getD ""))) = _
    rw [updateProduct_eq, hh, if_pos hc, dictSet_dictSet_same]
  · have h1 : updateProduct vm p = (p, false) := by
      rw [updateProduct_eq, if_neg hc]
    rw [h1]
    exact h1

theorem normalizeHandle_empty : normalizeHandle "" = "" := rfl

theorem normalizeHandle_eq_empty_of_ws {s : String}
    (h : ∀ c ∈ s.data, c.isWhitespace = true) : normalizeHandle s = "" := by
  unfold normalizeHandle pyStrip pyLower
  apply String.ext
  show stripL (s.data.map pyToLower) = ("" : String).data
  have hall : ∀ c ∈ s.data.map pyToLower, c.isWhitespace = true := by
    intro c hc
    obtain ⟨a, ha, rfl⟩ := List.mem_map.mp hc
    rw [isWhitespace_pyToLower]
    exact h a ha
  rw [stripL_eq_nil_of_all_whitespace hall]

theorem updateProduct_snd_false_of_empty (vm : VendorMap) (p : Product)
    (h : normalizeHandle (getHandle p) = "") : (updateProduct vm p).2 = false := by
  rw [updateProduct_eq, if_neg]
  rintro ⟨hne, _⟩
  exact hne h

/-! Facts about the product loop. -/

theorem processProducts_ok (vm : VendorMap) (ps js : List Json) (u n : Nat)
    (h : processProducts vm ps = Except.ok (js, u, n)) :
    js = ps.map (jsonUpdate vm) ∧ u + n = ps.length := by
  induction ps generalizing js u n with
  | nil =>
    simp only [processProducts, Except.ok.injEq, Prod.mk.injEq] at h
    obtain ⟨h1, h2, h3⟩ := h
    subst h1
    subst h2
    subst h3
    exact ⟨rfl, rfl⟩
  | cons j ps ih =>
    cases j with
    | obj p =>
      simp only [processProducts] at h
      by_cases hok : handleOkB p = true
      · rw [if_pos hok] at h
        cases hrec : processProducts vm ps with
        | error e =>
          rw [hrec] at h
          exact absurd h (by simp)
        | ok t =>
          obtain ⟨js', u', n'⟩ := t
          rw [hrec] at h
          simp only [Except.ok.injEq, Prod.mk.injEq] at h
          obtain ⟨hjs, hu, hn⟩ := h
          obtain ⟨ih1, ih2⟩ := ih js' u' n' hrec
          subst hjs
          subst hu
          subst hn
          constructor
          · rw [List.map_cons, ← ih1]
            rfl
          · simp only [List.length_cons]
            cases (updateProduct vm p).2 <;> simp <;> omega
      · rw [if_neg hok] at h
        exact absurd h (by simp)
    | null => exact absurd h (by simp [processProducts])
    | bool b => exact absurd h (by simp [processProducts])
    | num i => exact absurd h (by simp [processProducts])
    | str s => exact absurd h (by simp [processProducts])
    | arr xs => exact absurd h (by simp [processProducts])

theorem processProducts_idem (vm : VendorMap) (ps js : List Json) (u n : Nat)
    (h : processProducts vm ps = Except.ok (js, u, n)) :
    processProducts vm js = Except.ok (js, u, n) := by
  induction ps generalizing js u n with
  | nil =>
    simp only [processProducts, Except.ok.injEq, Prod.mk.injEq] at h
    obtain ⟨h1, h2, h3⟩ := h
    subst h1
    subst h2
    subst h3
    rfl
  | cons j ps ih =>
    cases j with
    | obj p =>
      simp only [processProducts] at h
      by_cases hok : handleOkB p = true
      · rw [if_pos hok] at h
        cases hrec : processProducts vm ps with
        | error e =>
          rw [hrec] at h
          exact absurd h (by simp)
        | ok t =>
          obtain ⟨js', u', n'⟩ := t
          rw [hrec] at h
          simp only [Except.ok.injEq, Prod.mk.injEq] at h
          obtain ⟨hjs, hu, hn⟩ := h
          subst hjs
          subst hu
          subst hn
          have hok' : handleOkB (updateProduct vm p).1 = true := by
            rw [handleOkB_updateProduct]
            exact hok
          simp only [processProducts]
          rw [if_pos hok', ih js' u' n' hrec, updateProduct_idem]
      · rw [if_neg hok] at h
        exact absurd h (by simp)
    | null => exact absurd h (by simp [processProducts])
    | bool b => exact absurd h (by simp [processProducts])
    | num i => exact absurd h (by simp [processProducts])
    | str s => exact absurd h (by simp [processProducts])
    | arr xs => exact absurd h (by simp [processProducts])

/-! Facts about the file-system step and further helpers. -/

theorem dictGet_setProducts_ne (cat : Catalog) (v : Json) {k : String}
    (hk : k ≠ "products") : dictGet (setProducts cat v) k = dictGet cat k := by
  unfold dictGet setProducts
  rw [lookup_assocSet, if_neg hk]

theorem backupName_ne (c : String) (ts : Int) : backupName c ts ≠ c := by
  intro h
  have hlen := congrArg String.length h
  simp only [backupName, String.length_append] at hlen
  have h8 : (".backup-" : String).length = 8 := rfl
  omega

theorem lastVendorFor_cons (r : Row) (l : List Row) (k : String) :
    lastVendorFor (r :: l) k =
      match lastVendorFor l k with
      | some v => some v
      | none =>
        if rowInserts r k then some (pyStrip (rowGet r "Vendor")) else none := rfl

theorem lastVendorFor_append (l1 l2 : List Row) (k : String) :
    lastVendorFor (l1 ++ l2) k =
      match lastVendorFor l2 k with
      | some v => some v
      | none => lastVendorFor l1 k := by
  induction l1 with
  | nil =>
    rw [List.nil_append]
    cases lastVendorFor l2 k with
    | some v => rfl
    | none => rfl
  | cons r l1 ih =>
    rw [List.cons_append, lastVendorFor_cons, lastVendorFor_cons, ih]
    cases lastVendorFor l2 k with
    | some v => rfl
    | none =>
      cases lastVendorFor l1 k with
      | some v => rfl
      | none => rfl

theorem lastVendorFor_eq_none (l : List Row) (k : String)
    (h : ∀ q ∈ l, ¬rowInserts q k) : lastVendorFor l k = none := by
  induction l with
  | nil => rfl
  | cons r l ih =>
    rw [lastVendorFor_cons, ih fun q hq => h q (List.mem_cons_of_mem r hq),
      if_neg (h r (List.mem_cons_self r l))]

/-! The claims. -/

/-- C1: a product is updated if and only if its normalized handle (lowercased,
stripped) is a key of the vendor map built by `load_vendor_map`; when updated
its `vendor` field holds the mapped value, and when not updated the product is
left entirely unchanged.  The code's extra non-emptiness guard on the handle
is redundant because the loader never inserts an empty key, which the
unrestricted right-to-left direction of the first equivalence shows. -/
theorem join_correctness (rows : List Row) (p : Product)
    (_hok : handleOkB p = true) :
    ((updateProduct (load_vendor_map rows) p).2 = true ↔
        vmContains (load_vendor_map rows) (normalizeHandle (getHandle p)) = true)
    ∧ ((updateProduct (load_vendor_map rows) p).2 = true →
        dictGet (updateProduct (load_vendor_map rows) p).1 "vendor" =
          Option.map Json.str
            (vmLookup (load_vendor_map rows) (normalizeHandle (getHandle p))))
    ∧ ((updateProduct (load_vendor_map rows) p).2 = false →
        (updateProduct (load_vendor_map rows) p).1 = p) := by
  refine ⟨?_, updateProduct_vendor _ p, updateProduct_not_updated _ p⟩
  rw [updateProduct_snd_iff]
  constructor
  · exact fun h => h.2
  · intro h
    refine ⟨?_, h⟩
    intro he
    rw [he, load_no_empty_key rows] at h
    exact Bool.false_ne_true h

/-- C1 witness: the scenario row `Handle= HAT-001 , Vendor=Acme` matched
against the product with handle `Hat-001`. -/
theorem join_correctness_spot :
    handleOkB [("handle", Json.str "Hat-001")] = true
    ∧ ((updateProduct
          (load_vendor_map [[("Handle", " HAT-001 "), ("Vendor", "Acme")]])
          [("handle", Json.str "Hat-001")]).2 = true ↔
        vmContains (load_vendor_map [[("Handle", " HAT-001 "), ("Vendor", "Acme")]])
          (normalizeHandle (getHandle [("handle", Json.str "Hat-001")])) = true) :=
  ⟨rfl, (join_correctness [[("Handle", " HAT-001 "), ("Vendor", "Acme")]]
    [("handle", Json.str "Hat-001")] rfl).1⟩

/-- C2: when the backup copy fails, `main` stops with `BackupFailed` and the
file system — in particular the catalog file — is exactly as it was: the
write step never runs without a successful backup. -/
theorem backup_gates_write (env : Env) (fs : FS) (csvF catF : FileData)
    (rows : List Row) (cat : Catalog) (ps js : List Json) (u n : Nat)
    (h1 : fsGet fs csvPath = some csvF)
    (h2 : env.csvParse csvF.content = Except.ok rows)
    (h3 : fsGet fs catalogPath = some catF)
    (h4 : env.jsonParse catF.content = Except.ok cat)
    (h5 : dictGet cat "products" = some (Json.arr ps))
    (h6 : processProducts (load_vendor_map rows) ps = Except.ok (js, u, n))
    (h7 : env.backupOk = false) :
    main env fs = (some Err.backupFailed, fs)
    ∧ fsGet (main env fs).2 catalogPath = some catF := by
  have hm : main env fs = (some Err.backupFailed, fs) := by
    simp only [main, h1, h2, h3, h4, h5, h6, copy2, h7]
    rfl
  exact ⟨hm, by rw [hm]; exact h3⟩

def c2Rows : List Row := [[("Handle", "h1"), ("Vendor", "V")]]

def c2Cat : Catalog :=
  [("products", Json.arr [Json.obj [("handle", Json.str "h1")]]),
    ("note", Json.str "keep")]

def c2Ps : List Json := [Json.obj [("handle", Json.str "h1")]]

def c2Js : List Json :=
  [Json.obj [("handle", Json.str "h1"), ("vendor", Json.str "V")]]

def c2Env : Env :=
  ⟨fun _ => Except.ok c2Rows, fun _ => Except.ok c2Cat, fun _ => "OUT",
    7, false, true, 5, "PART"⟩

def c2FS : FS :=
  [("Products.csv", ⟨"CSV", 1⟩), ("valid_image_catalog.json", ⟨"CAT", 2⟩)]

/-- C2 witness: a concrete run whose backup copy fails leaves the catalog
file holding its original content. -/
theorem backup_gates_write_spot :
    main c2Env c2FS = (some Err.backupFailed, c2FS)
    ∧ fsGet (main c2Env c2FS).2 catalogPath = some ⟨"CAT", 2⟩ :=
  backup_gates_write c2Env c2FS ⟨"CSV", 1⟩ ⟨"CAT", 2⟩ c2Rows c2Cat c2Ps c2Js
    1 0 rfl rfl rfl rfl rfl rfl rfl

/-- C3: the update touches nothing but the `vendor` field of a product, and
replacing the `products` value of the catalog document leaves every other
top-level field untouched. -/
theorem untouched_fields_preserved (vm : VendorMap) (p : Product)
    (cat : Catalog) (v : Json) (k k' : String) (_hok : handleOkB p = true)
    (hk : k ≠ "vendor") (hk' : k' ≠ "products") :
    dictGet (updateProduct vm p).1 k = dictGet p k
    ∧ dictGet (setProducts cat v) k' = dictGet cat k' :=
  ⟨updateProduct_frame vm p hk, dictGet_setProducts_ne cat v hk'⟩

def c3Vm : VendorMap := [("hat-001", "Acme")]

def c3P : Product :=
  [("handle", Json.str "Hat-001"), ("title", Json.str "Red Hat")]

def c3Cat : Catalog :=
  [("products", Json.arr []), ("note", Json.str "keep")]

/-- C3 witness: `title` of an updated product and `note` of the catalog are
untouched on a concrete run. -/
theorem untouched_fields_preserved_spot :
    dictGet (updateProduct c3Vm c3P).1 "title" = dictGet c3P "title"
    ∧ dictGet (setProducts c3Cat (Json.arr [])) "note" = dictGet c3Cat "note" :=
  untouched_fields_preserved c3Vm c3P c3Cat (Json.arr []) "title" "note"
    rfl (by decide) (by decide)

/-- C4: a successful pass of the product loop returns exactly as many
products as it was given, and the i-th output element is the update of the
i-th input element. -/
theorem product_count_and_order_preserved (vm : VendorMap) (ps js : List Json)
    (u n : Nat) (h : processProducts vm ps = Except.ok (js, u, n)) :
    js.length = ps.length ∧ js = ps.map (jsonUpdate vm) := by
  obtain ⟨h1, _⟩ := processProducts_ok vm ps js u n h
  subst h1
  exact ⟨List.length_map ps (jsonUpdate vm), rfl⟩

def c4Vm : VendorMap := [("hat-001", "Acme")]

def c4Ps : List Json :=
  [Json.obj [("handle", Json.str "Hat-001")], Json.obj [("handle", Json.str "zzz")]]

def c4Js : List Json :=
  [Json.obj [("handle", Json.str "Hat-001"), ("vendor", Json.str "Acme")],
    Json.obj [("handle", Json.str "zzz")]]

/-- C4 witness: a two-product run keeps length and order. -/
theorem product_count_and_order_preserved_spot :
    c4Js.length = c4Ps.length ∧ c4Js = c4Ps.map (jsonUpdate c4Vm) :=
  product_count_and_order_preserved c4Vm c4Ps c4Js 1 1 rfl

/-- C5: on a successful run the backup file at
`<catalog>.backup-<timestamp>` is a distinct path holding the catalog file
exactly as it stood on disk before the write, metadata included; the catalog
path holds the serialized updated document, and no other path changes —
exactly one backup is created. -/
theorem backup_before_overwrite (env : Env) (fs : FS) (csvF catF : FileData)
    (rows : List Row) (cat : Catalog) (ps js : List Json) (u n : Nat)
    (h1 : fsGet fs csvPath = some csvF)
    (h2 : env.csvParse csvF.content = Except.ok rows)
    (h3 : fsGet fs catalogPath = some catF)
    (h4 : env.jsonParse catF.content = Except.ok cat)
    (h5 : dictGet cat "products" = some (Json.arr ps))
    (h6 : processProducts (load_vendor_map rows) ps = Except.ok (js, u, n))
    (h7 : env.backupOk = true) (h8 : env.writeOk = true) :
    (main env fs).1 = none
    ∧ backupName catalogPath env.ts ≠ catalogPath
    ∧ fsGet (main env fs).2 (backupName catalogPath env.ts) = some catF
    ∧ fsGet (main env fs).2 catalogPath =
        some ⟨env.serialize (setProducts cat (Json.arr js)), env.writeMeta⟩
    ∧ ∀ q, q ≠ backupName catalogPath env.ts → q ≠ catalogPath →
        fsGet (main env fs).2 q = fsGet fs q := by
  have hm : main env fs =
      (none, fsSet (fsSet fs (backupName catalogPath env.ts) catF) catalogPath
        ⟨env.serialize (setProducts cat (Json.arr js)), env.writeMeta⟩) := by
    simp only [main, h1, h2, h3, h4, h5, h6, copy2, h7, h8]
    rfl
  refine ⟨by rw [hm], backupName_ne catalogPath env.ts, ?_, ?_, ?_⟩
  · rw [hm]
    show (fsSet (fsSet fs (backupName catalogPath env.ts) catF) catalogPath
        ⟨env.serialize (setProducts cat (Json.arr js)), env.writeMeta⟩).lookup
        (backupName catalogPath env.ts) = some catF
    rw [show ∀ m d, fsSet m catalogPath d = assocSet m catalogPath d from
      fun _ _ => rfl]
    rw [lookup_assocSet, if_neg (backupName_ne catalogPath env.ts)]
    show (assocSet fs (backupName catalogPath env.ts) catF).lookup
        (backupName catalogPath env.ts) = some catF
    rw [lookup_assocSet, if_pos rfl]
  · rw [hm]
    show (assocSet (fsSet fs (backupName catalogPath env.ts) catF) catalogPath
        ⟨env.serialize (setProducts cat (Json.arr js)), env.writeMeta⟩).lookup
        catalogPath = _
    rw [lookup_assocSet, if_pos rfl]
  · intro q hq1 hq2
    rw [hm]
    show (assocSet (fsSet fs (backupName catalogPath env.ts) catF) catalogPath
        ⟨env.serialize (setProducts cat (Json.arr js)), env.writeMeta⟩).lookup
        q = fsGet fs q
    rw [lookup_assocSet, if_neg hq2]
    show (assocSet fs (backupName catalogPath env.ts) catF).lookup q = _
    rw [lookup_assocSet, if_neg hq1]
    rfl

def c5Env : Env :=
  ⟨fun _ => Except.ok c2Rows, fun _ => Except.ok c2Cat, fun _ => "OUT",
    7, true, true, 5, "PART"⟩

/-- C5 witness: a concrete successful run creates the backup with the old
catalog bytes and metadata and leaves an unrelated path alone. -/
theorem backup_before_overwrite_spot :
    (main c5Env c2FS).1 = none
    ∧ fsGet (main c5Env c2FS).2 (backupName catalogPath 7) = some ⟨"CAT", 2⟩
    ∧ fsGet (main c5Env c2FS).2 "Products.csv" = fsGet c2FS "Products.csv" := by
  have h := backup_before_overwrite c5Env c2FS ⟨"CSV", 1⟩ ⟨"CAT", 2⟩ c2Rows
    c2Cat c2Ps c2Js 1 0 rfl rfl rfl rfl rfl rfl rfl rfl
  exact ⟨h.1, h.2.2.1, h.2.2.2.2 "Products.csv" (by decide) (by decide)⟩

/-- C6: a data row inserts an entry exactly when both its normalized handle
and its trimmed vendor are non-empty (a missing column reads as the empty
string); failing rows are skipped without any error, the loader being a total
function, so every key of the map is a non-empty lowercased trimmed string
and every value a non-empty trimmed string. -/
theorem loader_row_filter (rows : List Row) (k : String) :
    (vmContains (load_vendor_map rows) k = true ↔ ∃ row ∈ rows, rowInserts row k)
    ∧ (∀ kv ∈ load_vendor_map rows,
        kv.1 ≠ "" ∧ pyLower kv.1 = kv.1 ∧ pyStrip kv.1 = kv.1 ∧
          kv.2 ≠ "" ∧ pyStrip kv.2 = kv.2)
    ∧ (∀ (r : Row) (c : String), r.lookup c = none → rowGet r c = "") :=
  ⟨vmContains_load_iff rows k, goodPair_load rows,
    fun r c h => by unfold rowGet; rw [h]; rfl⟩

/-- C6 witness: the row `Handle= HAT-001 , Vendor= Acme ` yields the key
`hat-001` with trimmed value `Acme`, and a missing column reads as empty. -/
theorem loader_row_filter_spot :
    vmContains (load_vendor_map [[("Handle", " HAT-001 "), ("Vendor", " Acme ")]])
      "hat-001" = true
    ∧ (("hat-001" : String) ≠ "" ∧ pyLower "hat-001" = "hat-001" ∧
        pyStrip "hat-001" = "hat-001" ∧ ("Acme" : String) ≠ "" ∧
        pyStrip "Acme" = "Acme")
    ∧ rowGet [("Vendor", "v")] "Handle" = "" := by
  refine ⟨?_, ?_, ?_⟩
  · exact (loader_row_filter [[("Handle", " HAT-001 "), ("Vendor", " Acme ")]]
      "hat-001").1.mpr
      ⟨[("Handle", " HAT-001 "), ("Vendor", " Acme ")], by decide, by decide⟩
  · exact (loader_row_filter [[("Handle", " HAT-001 "), ("Vendor", " Acme ")]]
      "hat-001").2.1 ("hat-001", "Acme") (by decide)
  · exact (loader_row_filter [] "x").2.2 [("Vendor", "v")] "Handle" (by decide)

/-- C7: among the rows that insert an entry for a handle, the last one read
provides the retained vendor — later duplicates overwrite earlier ones, and
no error is raised (the loader is total). -/
theorem duplicate_handle_last_wins (rows1 rows2 : List Row) (r : Row)
    (k : String) (hr : rowInserts r k) (hafter : ∀ q ∈ rows2, ¬rowInserts q k) :
    vmLookup (load_vendor_map (rows1 ++ r :: rows2)) k =
      some (pyStrip (rowGet r "Vendor")) := by
  rw [vmLookup_load_eq_lastVendorFor, lastVendorFor_append, lastVendorFor_cons,
    lastVendorFor_eq_none rows2 k hafter, if_pos hr]

/-- C7 witness: handles `abc` with vendors `X` then `Y` end up mapped to
`Y`. -/
theorem duplicate_handle_last_wins_spot :
    vmLookup (load_vendor_map [[("Handle", "abc"), ("Vendor", "X")],
      [("Handle", "abc"), ("Vendor", "Y")]]) "abc" = some "Y" :=
  duplicate_handle_last_wins [[("Handle", "abc"), ("Vendor", "X")]] []
    [("Handle", "abc"), ("Vendor", "Y")] "abc" (by decide)
    (fun q hq => absurd hq (List.not_mem_nil q))

/-- C8: when the vendor table file exists but its content does not parse as a
delimited table, the run aborts at once with `MalformedInput` and the file
system is untouched — no empty or partial map is put to use. -/
theorem malformed_vendor_table_aborts (env : Env) (fs : FS) (csvF : FileData)
    (h1 : fsGet fs csvPath = some csvF)
    (h2 : env.csvParse csvF.content = Except.error ()) :
    main env fs = (some Err.malformedInput, fs) := by
  simp only [main, h1, h2]

def c8Env : Env :=
  ⟨fun _ => Except.error (), fun _ => Except.ok c2Cat, fun _ => "OUT",
    7, true, true, 5, "PART"⟩

/-- C8 witness: a concrete unparseable vendor table aborts the run. -/
theorem malformed_vendor_table_aborts_spot :
    main c8Env c2FS = (some Err.malformedInput, c2FS) :=
  malformed_vendor_table_aborts c8Env c2FS ⟨"CSV", 1⟩ rfl rfl

/-- C9: the in-memory update is idempotent — running the product loop on its
own output returns that output unchanged (with the very same counts). -/
theorem update_idempotent (vm : VendorMap) (ps js : List Json) (u n : Nat)
    (h : processProducts vm ps = Except.ok (js, u, n)) :
    processProducts vm js = Except.ok (js, u, n) :=
  processProducts_idem vm ps js u n h

def c9Vm : VendorMap := [("hat-001", "Acme")]

def c9Ps : List Json :=
  [Json.obj [("handle", Json.str "Hat-001")], Json.obj [("handle", Json.str "zzz")]]

def c9Js : List Json :=
  [Json.obj [("handle", Json.str "Hat-001"), ("vendor", Json.str "Acme")],
    Json.obj [("handle", Json.str "zzz")]]

/-- C9 witness: re-running the loop on a concrete updated catalog is a
no-op. -/
theorem update_idempotent_spot :
    processProducts c9Vm c9Js = Except.ok (c9Js, 1, 1) :=
  update_idempotent c9Vm c9Ps c9Js 1 1 rfl

/-- C10: after the loop, `updated_count + not_found_count` equals the number
of products — each product tallies exactly one counter — and a product with
a missing or whitespace-only handle always tallies `not_found_count`. -/
theorem counts_partition (vm : VendorMap) (ps js : List Json) (u n : Nat)
    (h : processProducts vm ps = Except.ok (js, u, n)) :
    u + n = ps.length
    ∧ (∀ p : Product, dictGet p "handle" = none → (updateProduct vm p).2 = false)
    ∧ (∀ (p : Product) (s : String), dictGet p "handle" = some (Json.str s) →
        (∀ c ∈ s.data, c.isWhitespace = true) → (updateProduct vm p).2 = false) := by
  refine ⟨(processProducts_ok vm ps js u n h).2, ?_, ?_⟩
  · intro p hp
    apply updateProduct_snd_false_of_empty
    have hg : getHandle p = "" := by
      unfold getHandle
      rw [hp]
    rw [hg]
    exact normalizeHandle_empty
  · intro p s hp hws
    apply updateProduct_snd_false_of_empty
    have hg : getHandle p = s := by
      unfold getHandle
      rw [hp]
    rw [hg]
    exact normalizeHandle_eq_empty_of_ws hws

def c10Vm : VendorMap := [("hat-001", "Acme")]

def c10Ps : List Json :=
  [Json.obj [("handle", Json.str "Hat-001")], Json.obj [("title", Json.str "t")]]

def c10Js : List Json :=
  [Json.obj [("handle", Json.str "Hat-001"), ("vendor", Json.str "Acme")],
    Json.obj [("title", Json.str "t")]]

/-- C10 witness: one matched and one unmatched product give counts summing to
two; a handleless product and a whitespace-handle product both count as not
found. -/
theorem counts_partition_spot :
    1 + 1 = c10Ps.length
    ∧ (updateProduct c10Vm [("title", Json.str "t")]).2 = false
    ∧ (updateProduct c10Vm [("handle", Json.str "   ")]).2 = false := by
  have h := counts_partition c10Vm c10Ps c10Js 1 1 rfl
  exact ⟨h.1, h.2.1 [("title", Json.str "t")] rfl,
    h.2.2 [("handle", Json.str "   ")] "   " rfl (by decide)⟩

end AddVendor
